import Mathlib

/-!
Shallow embedding of the qafoia database-migration orchestrator.

The Go package keeps a registry of named migrations (a map from name to
migration, iterated through a sorted-name view) and drives a pluggable
`Driver` through the operations `Migrate`, `Rollback`, `Reset`, `List`,
`Register` and the helper `sanitizeMigrationName`.

Modelling choices:
* A `Migration` (a Go interface with `Name`, `UpScript`, `DownScript`) is a
  record of those three strings.
* `time.Time` is modelled as a natural-number clock held in the driver state
  and advanced on every bookkeeping insert.
* The MySQL reference driver is embedded as a pure state machine over
  `DriverState` (the bookkeeping-table rows).  SQL execution is an oracle in
  `Env`: `sqlFail s = some msg` means running the script `s` errors with
  `msg`; `insertFail`/`deleteFail` are the corresponding oracles for the
  bookkeeping insert/delete of a migration name.  Table creation and row
  reads are modelled as infallible; the claims under study exercise the
  script and bookkeeping failure paths.
* Every driver interaction and every lifecycle hook invocation is logged in
  an `Event` trace: `execSql` is emitted whenever a non-empty script reaches
  the database, `insertRow`/`deleteRow` when a bookkeeping write succeeds,
  and `hookRunning`/`hookSuccess`/`hookFailed` mirror the `onRunning`,
  `onSuccess`, `onFailed` callbacks.
* The registry map is modelled as a list of migrations keyed by their name
  (the Go code always uses the migration's own `Name()` as the map key);
  lookup takes the first entry with the given name.
* Go's `strings.ToLower` is modelled per-character on ASCII letters and the
  byte-capping `name[:200]` at rune granularity; both are exact on the ASCII
  names the sanitiser accepts.
-/

namespace Qafoia

/-- A migration: the Go `Migration` interface (`Name`, `UpScript`,
`DownScript`) as a record. -/
structure Migration where
  name : String
  upScript : String
  downScript : String
deriving Repr, DecidableEq

/-- A bookkeeping-table row: Go `ExecutedMigration` (`Name`, `ExecutedAt`). -/
structure ExecutedMigration where
  name : String
  executedAt : Nat
deriving Repr, DecidableEq

/-- An entry of the result of `List`: Go `RegisteredMigration`. -/
structure RegisteredMigration where
  name : String
  upScript : String
  downScript : String
  isExecuted : Bool
  executedAt : Option Nat
deriving Repr, DecidableEq

/-- The engine's error values, as far as the embedded operations produce
them.  `applyFailed`/`recordFailed` (resp. `unapplyFailed`/`removeFailed`)
are the driver errors `failed to apply migration %s` / `failed to record
migration %s` (resp. the unapply/remove counterparts), carrying the failing
migration's name as the code wraps it into the message. -/
inductive QError where
  | migrationNameNotProvided
  | duplicateRegistration (name : String)
  | invalidRollbackStep
  | applyFailed (name : String) (msg : String)
  | recordFailed (name : String) (msg : String)
  | unapplyFailed (name : String) (msg : String)
  | removeFailed (name : String) (msg : String)
deriving Repr, DecidableEq

/-- The name a driver error is wrapped with, if any. -/
def QError.wrappedName : QError → Option String
  | .applyFailed n _ => some n
  | .recordFailed n _ => some n
  | .unapplyFailed n _ => some n
  | .removeFailed n _ => some n
  | _ => none

/-- Observable events: driver calls, database writes and lifecycle hooks. -/
inductive Event where
  | createTable
  | getExecuted (reverse : Bool)
  | cleanDatabase
  | applyCall (names : List String)
  | unapplyCall (names : List String)
  | execSql (sql : String)
  | insertRow (name : String)
  | deleteRow (name : String)
  | hookRunning (name : String)
  | hookSuccess (name : String)
  | hookFailed (name : String)
  | warnNotFound (name : String)
deriving Repr, DecidableEq

/-- The driver's persistent state: the bookkeeping-table rows (in insertion
order; the query layer sorts them) and the clock used for `executed_at`. -/
structure DriverState where
  rows : List ExecutedMigration
  now : Nat
deriving Repr, DecidableEq

/-- The SQL environment: which scripts and bookkeeping writes fail. -/
structure Env where
  sqlFail : String → Option String
  insertFail : String → Option String
  deleteFail : String → Option String

/-- The environment in which every statement succeeds. -/
def envOk : Env := ⟨fun _ => none, fun _ => none, fun _ => none⟩

/-- Lexicographic order on code-point sequences: Go's byte-wise string
comparison (`s1 < s2` on UTF-8 bytes agrees with code-point order). -/
def charListLe : List Char → List Char → Bool
  | [], _ => true
  | _ :: _, [] => false
  | a :: as, b :: bs =>
    if a.toNat < b.toNat then true
    else if b.toNat < a.toNat then false
    else charListLe as bs

/-- Go's `<=` on strings, used by `sort.Strings` and `ORDER BY name`. -/
def strLe (a b : String) : Bool := charListLe a.data b.data

/-- Model of `GetExecutedMigrations`: `SELECT name, executed_at FROM t ORDER BY name
ASC|DESC` — the rows sorted by name, descending when `reverse`. -/
def getExecutedMigrations (st : DriverState) (reverse : Bool) :
    List ExecutedMigration :=
  if reverse then
    List.insertionSort (fun a b => strLe b.name a.name = true) st.rows
  else
    List.insertionSort (fun a b => strLe a.name b.name = true) st.rows

/-- Model of `executeMigrationSQL`: returns immediately (no database call) on the
empty script, otherwise runs it, erring as the oracle dictates. -/
def executeMigrationSQL (env : Env) (sql : String) : Option String :=
  if sql = "" then none else env.sqlFail sql

/-- The trace of `executeMigrationSQL`: no event on the empty script. -/
def execSqlEvents (sql : String) : List Event :=
  if sql = "" then [] else [Event.execSql sql]

/-- Model of `insertExecutedMigration`: `INSERT INTO t (name, executed_at) VALUES
(?, ?)` — appends a row stamped with the current clock, or fails. -/
def insertExecutedMigration (env : Env) (st : DriverState) (name : String) :
    DriverState × Option String :=
  match env.insertFail name with
  | some msg => (st, some msg)
  | none =>
      ({ rows := st.rows ++ [{ name := name, executedAt := st.now }],
         now := st.now + 1 }, none)

/-- Model of `removeExecutedMigration`: `DELETE FROM t WHERE name = ?`. -/
def removeExecutedMigration (env : Env) (st : DriverState) (name : String) :
    DriverState × Option String :=
  match env.deleteFail name with
  | some msg => (st, some msg)
  | none => ({ st with rows := st.rows.filter (fun r => r.name ≠ name) }, none)

/-- Model of `MySqlDriver.ApplyMigrations`: for each migration in order, invoke
`onRunning`, run the forward script, record the migration, invoke
`onSuccess`; on either error invoke `onFailed` and stop, returning the error
wrapped with the migration's name. -/
def applyMigrations (env : Env) :
    DriverState → List Migration → DriverState × List Event × Option QError
  | st, [] => (st, [], none)
  | st, mig :: rest =>
    match executeMigrationSQL env mig.upScript with
    | some msg =>
        (st,
         Event.hookRunning mig.name ::
           execSqlEvents mig.upScript ++ [Event.hookFailed mig.name],
         some (QError.applyFailed mig.name msg))
    | none =>
      match insertExecutedMigration env st mig.name with
      | (_, some msg) =>
          (st,
           Event.hookRunning mig.name ::
             execSqlEvents mig.upScript ++ [Event.hookFailed mig.name],
           some (QError.recordFailed mig.name msg))
      | (st', none) =>
          let res := applyMigrations env st' rest
          (res.1,
           Event.hookRunning mig.name ::
             execSqlEvents mig.upScript ++
               Event.insertRow mig.name :: Event.hookSuccess mig.name :: res.2.1,
           res.2.2)

/-- Model of `MySqlDriver.UnapplyMigrations`: for each migration in order, invoke
`onRunning`, run the reverse script, delete the bookkeeping row, invoke
`onSuccess`; on either error invoke `onFailed` and stop. -/
def unapplyMigrations (env : Env) :
    DriverState → List Migration → DriverState × List Event × Option QError
  | st, [] => (st, [], none)
  | st, mig :: rest =>
    match executeMigrationSQL env mig.downScript with
    | some msg =>
        (st,
         Event.hookRunning mig.name ::
           execSqlEvents mig.downScript ++ [Event.hookFailed mig.name],
         some (QError.unapplyFailed mig.name msg))
    | none =>
      match removeExecutedMigration env st mig.name with
      | (_, some msg) =>
          (st,
           Event.hookRunning mig.name ::
             execSqlEvents mig.downScript ++ [Event.hookFailed mig.name],
           some (QError.removeFailed mig.name msg))
      | (st', none) =>
          let res := unapplyMigrations env st' rest
          (res.1,
           Event.hookRunning mig.name ::
             execSqlEvents mig.downScript ++
               Event.deleteRow mig.name :: Event.hookSuccess mig.name :: res.2.1,
           res.2.2)

/-- Registry lookup: `q.migrations[name]` (the map is keyed by each
migration's own name). -/
def lookupMigration (reg : List Migration) (name : String) : Option Migration :=
  reg.find? (fun m => m.name = name)

/-- Model of `Register`: left to right, reject an empty name, reject a name already
present, otherwise insert; stops at the first failure, keeping the
insertions already made in the same call. -/
def register (reg : List Migration) :
    List Migration → List Migration × Option QError
  | [] => (reg, none)
  | m :: rest =>
    if m.name = "" then (reg, some QError.migrationNameNotProvided)
    else if (lookupMigration reg m.name).isSome then
      (reg, some (QError.duplicateRegistration m.name))
    else register (reg ++ [m]) rest

/-- Model of `getSortedMigrationName`: the registry's keys sorted ascending
(`sort.Strings`). -/
def getSortedMigrationName (reg : List Migration) : List String :=
  List.insertionSort (fun a b => strLe a b = true) (reg.map (fun m => m.name))

/-- The pending set computed by `Migrate`: iterate the sorted name view,
look each name up, keep the migrations not yet recorded as executed. -/
def migrationsToApply (reg : List Migration)
    (executed : List ExecutedMigration) : List Migration :=
  let executedNames := executed.map (fun e => e.name)
  (getSortedMigrationName reg).filterMap (fun n =>
    match lookupMigration reg n with
    | some m => if executedNames.contains m.name then none else some m
    | none => none)

/-- Model of `Migrate`: ensure the table, fetch the executed set ascending, compute
the pending migrations, and if any, hand them to `ApplyMigrations`. -/
def migrate (env : Env) (reg : List Migration) (st : DriverState) :
    DriverState × List Event × Option QError :=
  let executed := getExecutedMigrations st false
  let toApply := migrationsToApply reg executed
  if toApply.isEmpty then
    (st, [Event.createTable, Event.getExecuted false], none)
  else
    let res := applyMigrations env st toApply
    (res.1,
     Event.createTable :: Event.getExecuted false ::
       Event.applyCall (toApply.map (fun m => m.name)) :: res.2.1,
     res.2.2)

/-- The `Rollback` selection loop: look each executed row up in the
registry, warn (and skip) when it is absent. -/
def selectRollback (reg : List Migration) :
    List ExecutedMigration → List Migration × List Event
  | [] => ([], [])
  | e :: rest =>
    match lookupMigration reg e.name with
    | some m =>
        let r := selectRollback reg rest
        (m :: r.1, r.2)
    | none =>
        let r := selectRollback reg rest
        (r.1, Event.warnNotFound e.name :: r.2)

/-- The clamp `if step > len(executedMigrations) { step = len(...) }` of
`Rollback`, as the number of descending rows taken. -/
def rollbackStepN (st : DriverState) (step : Int) : Nat :=
  let executed := getExecutedMigrations st true
  if (executed.length : Int) < step then executed.length else step.toNat

/-- The selection section of `Rollback`: the registered migrations among the
first clamped-`step` executed rows (descending), with the warnings for the
skipped names. -/
def rollbackTargets (reg : List Migration) (st : DriverState) (step : Int) :
    List Migration × List Event :=
  selectRollback reg ((getExecutedMigrations st true).take (rollbackStepN st step))

/-- Model of `Rollback`: reject `step <= 0`; fetch the executed rows descending;
no-op when none; clamp `step` to the executed count; select the registered
migrations among the first `step` rows (warning on the others); no-op when
none survive; otherwise hand them to `UnapplyMigrations` in that order. -/
def rollback (env : Env) (reg : List Migration) (st : DriverState)
    (step : Int) : DriverState × List Event × Option QError :=
  if step ≤ 0 then (st, [], some QError.invalidRollbackStep)
  else
    let executed := getExecutedMigrations st true
    if executed.isEmpty then (st, [Event.getExecuted true], none)
    else
      let sel := rollbackTargets reg st step
      if sel.1.isEmpty then (st, Event.getExecuted true :: sel.2, none)
      else
        let res := unapplyMigrations env st sel.1
        (res.1,
         Event.getExecuted true ::
           sel.2 ++ Event.unapplyCall (sel.1.map (fun m => m.name)) :: res.2.1,
         res.2.2)

/-- Model of `Reset`: fetch the executed rows descending; no-op when none; otherwise
`Rollback(count)` then `Migrate` (errors abort between the phases). -/
def reset (env : Env) (reg : List Migration) (st : DriverState) :
    DriverState × List Event × Option QError :=
  let executed := getExecutedMigrations st true
  if executed.isEmpty then (st, [Event.getExecuted true], none)
  else
    let r1 := rollback env reg st (executed.length : Int)
    match r1.2.2 with
    | some e => (r1.1, Event.getExecuted true :: r1.2.1, some e)
    | none =>
        let r2 := migrate env reg r1.1
        (r2.1, Event.getExecuted true :: r1.2.1 ++ r2.2.1, r2.2.2)

/-- Model of `List`: ensure the table, fetch the executed rows ascending, and return
every registered migration in sorted-name order annotated with its executed
status and timestamp (the executed map is built front to back, so a later
row with the same name wins, matching Go map insertion). -/
def listMigrations (reg : List Migration) (st : DriverState) :
    List RegisteredMigration × List Event :=
  let executed := getExecutedMigrations st false
  let lookupExec : String → Option Nat := fun name =>
    (executed.reverse.find? (fun e => e.name = name)).map (fun e => e.executedAt)
  let entries := (getSortedMigrationName reg).filterMap (fun k =>
    (lookupMigration reg k).map (fun m =>
      { name := m.name, upScript := m.upScript, downScript := m.downScript,
        isExecuted := (lookupExec m.name).isSome,
        executedAt := lookupExec m.name : RegisteredMigration }))
  (entries, [Event.createTable, Event.getExecuted false])

/-- Model of `unicode.IsSpace` on the code points Go's table covers. -/
def goIsSpace (c : Char) : Bool :=
  c = '\t' || c = '\n' || c = '\u000B' || c = '\u000C' || c = '\r' ||
  c = ' ' || c = '\u0085' || c = '\u00A0' || c = '\u1680' ||
  ('\u2000' ≤ c && c ≤ '\u200A') || c = '\u2028' || c = '\u2029' ||
  c = '\u202F' || c = '\u205F' || c = '\u3000'

/-- Trim a predicate's characters from both ends (`strings.TrimSpace`,
`strings.Trim`). -/
def trimBy (p : Char → Bool) (s : List Char) : List Char :=
  ((s.dropWhile p).reverse.dropWhile p).reverse

/-- The character class of the validation pattern `[a-zA-Z0-9_]`. -/
def isWordChar (c : Char) : Bool :=
  ('a' ≤ c && c ≤ 'z') || ('A' ≤ c && c ≤ 'Z') || ('0' ≤ c && c ≤ '9') ||
  c = '_'

/-- The transformation pipeline of `sanitizeMigrationName`: hyphens and
spaces to underscores (the space replacement appears twice in the source),
lowercase, trim whitespace, trim underscores, cap at 200 characters. -/
def sanitizeTransform (s : List Char) : List Char :=
  let s1 := s.map (fun c => if c = '-' then '_' else c)
  let s2 := s1.map (fun c => if c = ' ' then '_' else c)
  let s3 := s2.map (fun c => if c = ' ' then '_' else c)
  let s4 := s3.map Char.toLower
  let s5 := trimBy goIsSpace s4
  let s6 := trimBy (fun c => c = '_') s5
  if s6.length > 200 then s6.take 200 else s6

/-- Model of `sanitizeMigrationName`: transform, then require a non-empty result
matching the validation pattern, else error (`none`). -/
def sanitizeMigrationName (s : String) : Option String :=
  let t := sanitizeTransform s.data
  if !t.isEmpty && t.all isWordChar then some (String.mk t) else none

/-! ### Derived notions used to state and prove the properties -/

/-- An apply step of `ApplyMigrations` succeeds: the forward script runs
without error and the bookkeeping insert succeeds. -/
def applyStepOk (env : Env) (m : Migration) : Bool :=
  (executeMigrationSQL env m.upScript).isNone && (env.insertFail m.name).isNone

/-- An unapply step of `UnapplyMigrations` succeeds: the reverse script runs
without error and the bookkeeping delete succeeds. -/
def unapplyStepOk (env : Env) (m : Migration) : Bool :=
  (executeMigrationSQL env m.downScript).isNone && (env.deleteFail m.name).isNone

/-- The driver state after successfully recording a list of migrations. -/
def recordAll (st : DriverState) : List Migration → DriverState
  | [] => st
  | m :: rest =>
      recordAll
        { rows := st.rows ++ [{ name := m.name, executedAt := st.now }],
          now := st.now + 1 } rest

/-- The driver state after successfully deleting the bookkeeping rows of a
list of migrations. -/
def removeAll (st : DriverState) : List Migration → DriverState
  | [] => st
  | m :: rest =>
      removeAll { st with rows := st.rows.filter (fun r => r.name ≠ m.name) } rest

/-- The trace of a fully successful `ApplyMigrations` run. -/
def okApplyEvents : List Migration → List Event
  | [] => []
  | m :: rest =>
      Event.hookRunning m.name ::
        execSqlEvents m.upScript ++
          Event.insertRow m.name :: Event.hookSuccess m.name :: okApplyEvents rest

/-- The trace of a fully successful `UnapplyMigrations` run. -/
def okUnapplyEvents : List Migration → List Event
  | [] => []
  | m :: rest =>
      Event.hookRunning m.name ::
        execSqlEvents m.downScript ++
          Event.deleteRow m.name :: Event.hookSuccess m.name :: okUnapplyEvents rest

/-- Whether an event is an `onSuccess` hook invocation. -/
def isSuccessHook : Event → Bool
  | Event.hookSuccess _ => true
  | _ => false

/-- Processing a list of migrations from registry `reg` accepts all of them:
each has a non-empty name not yet present at its turn. -/
def acceptsFrom (reg : List Migration) : List Migration → Bool
  | [] => true
  | m :: rest =>
      !(m.name = "" : Bool) && !(lookupMigration reg m.name).isSome &&
        acceptsFrom (reg ++ [m]) rest

/-! ### Example inputs (used by the concrete parts of the development) -/

/-- Example migration `a` of the spec's `List` scenario. -/
def exampleA : Migration := ⟨"20240101_a", "CREATE TABLE a (id INT)", "DROP TABLE a"⟩

/-- Example migration `b` of the spec's `List` scenario. -/
def exampleB : Migration := ⟨"20240102_b", "CREATE TABLE b (id INT)", "DROP TABLE b"⟩

/-- Example migration `c` of the spec's `List` scenario. -/
def exampleC : Migration := ⟨"20240103_c", "CREATE TABLE c (id INT)", "DROP TABLE c"⟩

/-- Example registry {a, b, c} (registered out of order). -/
def exampleReg : List Migration := [exampleB, exampleA, exampleC]

/-- Example driver state: `a` and `b` executed. -/
def exampleSt : DriverState :=
  ⟨[{ name := "20240101_a", executedAt := 1 }, { name := "20240102_b", executedAt := 2 }], 3⟩

/-- Example driver state with `a`, `b` and `c` all executed. -/
def exampleSt3 : DriverState :=
  ⟨[{ name := "20240101_a", executedAt := 1 }, { name := "20240102_b", executedAt := 2 },
    { name := "20240103_c", executedAt := 3 }], 4⟩

/-! ### Basic lemmas -/

theorem lookupMigration_name {reg : List Migration} {k : String} {m : Migration}
    (h : lookupMigration reg k = some m) : m.name = k := by
  have := List.find?_some h
  exact of_decide_eq_true this

theorem lookupMigration_isSome {reg : List Migration} {k : String} :
    (lookupMigration reg k).isSome = true ↔ k ∈ reg.map (fun m => m.name) := by
  unfold lookupMigration
  rw [List.find?_isSome]
  constructor
  · rintro ⟨m, hm, hp⟩
    exact List.mem_map.mpr ⟨m, hm, of_decide_eq_true hp⟩
  · rintro h
    rcases List.mem_map.mp h with ⟨m, hm, hname⟩
    exact ⟨m, hm, decide_eq_true hname⟩

theorem mem_getSortedMigrationName {reg : List Migration} {k : String} :
    k ∈ getSortedMigrationName reg ↔ k ∈ reg.map (fun m => m.name) := by
  unfold getSortedMigrationName
  exact (List.perm_insertionSort _ _).mem_iff

theorem mem_getExecutedMigrations {st : DriverState} {rev : Bool}
    {e : ExecutedMigration} : e ∈ getExecutedMigrations st rev ↔ e ∈ st.rows := by
  unfold getExecutedMigrations
  cases rev <;> simp [(List.perm_insertionSort _ st.rows).mem_iff]

theorem length_getExecutedMigrations {st : DriverState} {rev : Bool} :
    (getExecutedMigrations st rev).length = st.rows.length := by
  unfold getExecutedMigrations
  cases rev <;> simp [List.length_insertionSort]

theorem mem_name_getExecutedMigrations {st : DriverState} {rev : Bool}
    {k : String} :
    k ∈ (getExecutedMigrations st rev).map (fun e => e.name) ↔
      k ∈ st.rows.map (fun e => e.name) := by
  constructor <;> intro h <;> rcases List.mem_map.mp h with ⟨e, he, hn⟩
  · exact List.mem_map.mpr ⟨e, mem_getExecutedMigrations.mp he, hn⟩
  · exact List.mem_map.mpr ⟨e, mem_getExecutedMigrations.mpr he, hn⟩

/-! ### C3: Rollback with a non-positive step -/

/-- C3: for every `step ≤ 0` (in particular 0 and -1), `Rollback` fails with
the invalid-rollback-step error, leaves the driver state untouched, and makes
no driver calls at all (the trace is empty: no executed-migration fetch, no
unapply). -/
theorem rollback_nonpositive_step (env : Env) (reg : List Migration)
    (st : DriverState) (step : Int) (h : step ≤ 0) :
    rollback env reg st step = (st, [], some QError.invalidRollbackStep) := by
  unfold rollback
  rw [if_pos h]

/-- Witness for C3: concrete runs at step 0 and step -1. -/
theorem rollback_nonpositive_step_witness :
    rollback envOk exampleReg exampleSt 0 =
      (exampleSt, [], some QError.invalidRollbackStep) ∧
    rollback envOk exampleReg exampleSt (-1) =
      (exampleSt, [], some QError.invalidRollbackStep) :=
  ⟨rollback_nonpositive_step envOk exampleReg exampleSt 0 (by decide),
   rollback_nonpositive_step envOk exampleReg exampleSt (-1) (by decide)⟩

/-! ### C9: sanitizeMigrationName -/

/-- C9: `sanitizeMigrationName "My Migration-Name"` is
`"my_migration_name"`, and any input whose transformed form (hyphens and
spaces to underscores, lowercased, whitespace- and underscore-trimmed,
capped at 200 characters) still contains a character outside `[a-zA-Z0-9_]`
is rejected with an error instead of a name. -/
theorem sanitizeMigrationName_spec :
    sanitizeMigrationName "My Migration-Name" = some "my_migration_name" ∧
    ∀ s : String, ∀ c ∈ sanitizeTransform s.data, isWordChar c = false →
      sanitizeMigrationName s = none := by
  constructor
  · decide
  · intro s c hc hw
    have hall : (sanitizeTransform s.data).all isWordChar = false :=
      List.all_eq_false.mpr ⟨c, hc, by simp [hw]⟩
    simp [sanitizeMigrationName, hall]

/-- Witness for C9: the sanctioned example, plus the rejection of an input
containing `!`. -/
theorem sanitizeMigrationName_spec_witness :
    sanitizeMigrationName "My Migration-Name" = some "my_migration_name" ∧
    sanitizeMigrationName "bad!" = none :=
  ⟨sanitizeMigrationName_spec.1,
   sanitizeMigrationName_spec.2 "bad!" '!' (by decide) (by decide)⟩

/-! ### C10: empty scripts skip SQL but keep bookkeeping -/

/-- C10: a migration whose forward script is empty leads `ApplyMigrations`
to execute no SQL for it (no `execSql` event) while still inserting its
bookkeeping row and invoking `onSuccess`; dually, an empty reverse script
leads `UnapplyMigrations` to skip the SQL but still delete the bookkeeping
row and invoke `onSuccess`. -/
theorem empty_script_bookkeeping (env : Env) (st : DriverState)
    (mig : Migration) (rest : List Migration)
    (hup : mig.upScript = "") (hins : env.insertFail mig.name = none) :
    applyMigrations env st (mig :: rest) =
      ((applyMigrations env
          { rows := st.rows ++ [{ name := mig.name, executedAt := st.now }],
            now := st.now + 1 } rest).1,
       Event.hookRunning mig.name :: Event.insertRow mig.name ::
         Event.hookSuccess mig.name ::
           (applyMigrations env
              { rows := st.rows ++ [{ name := mig.name, executedAt := st.now }],
                now := st.now + 1 } rest).2.1,
       (applyMigrations env
          { rows := st.rows ++ [{ name := mig.name, executedAt := st.now }],
            now := st.now + 1 } rest).2.2) ∧
    (mig.downScript = "" → env.deleteFail mig.name = none →
      unapplyMigrations env st (mig :: rest) =
        ((unapplyMigrations env
            { st with rows := st.rows.filter (fun r => r.name ≠ mig.name) } rest).1,
         Event.hookRunning mig.name :: Event.deleteRow mig.name ::
           Event.hookSuccess mig.name ::
             (unapplyMigrations env
                { st with rows := st.rows.filter (fun r => r.name ≠ mig.name) } rest).2.1,
         (unapplyMigrations env
            { st with rows := st.rows.filter (fun r => r.name ≠ mig.name) } rest).2.2)) := by
  constructor
  · simp [applyMigrations, executeMigrationSQL, insertExecutedMigration, hup,
      hins, execSqlEvents]
  · intro hdown hdel
    simp [unapplyMigrations, executeMigrationSQL, removeExecutedMigration,
      hdown, hdel, execSqlEvents]

/-- Witness for C10: a concrete empty-script migration is recorded and then
removed without any SQL reaching the database. -/
theorem empty_script_bookkeeping_witness :
    applyMigrations envOk { rows := [], now := 0 }
        [{ name := "20240104_d", upScript := "", downScript := "" }] =
      ({ rows := [{ name := "20240104_d", executedAt := 0 }], now := 1 },
       [Event.hookRunning "20240104_d", Event.insertRow "20240104_d",
        Event.hookSuccess "20240104_d"], none) ∧
    unapplyMigrations envOk
        { rows := [{ name := "20240104_d", executedAt := 0 }], now := 1 }
        [{ name := "20240104_d", upScript := "", downScript := "" }] =
      ({ rows := [], now := 1 },
       [Event.hookRunning "20240104_d", Event.deleteRow "20240104_d",
        Event.hookSuccess "20240104_d"], none) := by
  constructor
  · have h := (empty_script_bookkeeping envOk { rows := [], now := 0 }
      { name := "20240104_d", upScript := "", downScript := "" } [] rfl rfl).1
    simpa using h
  · have h := ((empty_script_bookkeeping envOk
      { rows := [{ name := "20240104_d", executedAt := 0 }], now := 1 }
      { name := "20240104_d", upScript := "", downScript := "" } [] rfl rfl).2 rfl rfl)
    simpa using h

/-! ### C6: Register checks left to right, keeping earlier insertions -/

theorem register_append_ok {pre : List Migration} :
    ∀ {reg : List Migration}, acceptsFrom reg pre = true →
      ∀ ms : List Migration, register reg (pre ++ ms) = register (reg ++ pre) ms := by
  induction pre with
  | nil => intro reg _ ms; simp
  | cons m pre ih =>
      intro reg hacc ms
      unfold acceptsFrom at hacc
      simp only [Bool.and_eq_true, Bool.not_eq_true'] at hacc
      obtain ⟨⟨hname, hlook⟩, hrest⟩ := hacc
      have hname' : ¬(m.name = "") := by
        intro h; rw [h] at hname; simp at hname
      have step : register reg ((m :: pre) ++ ms) = register (reg ++ [m]) (pre ++ ms) := by
        simp only [List.cons_append, register]
        rw [if_neg hname', if_neg (by simp [hlook])]
        rfl
      rw [step, ih hrest ms, List.append_assoc]
      rfl

/-- C6: `Register` checks migrations left to right.  After a prefix `pre`
that is accepted from registry `reg`, a migration with an empty name makes
the call return the name-missing error, and a migration whose name is
already present (in the original registry or inserted earlier in the same
call) makes it return the duplicate-name error; in both cases the call
returns immediately with the registry equal to `reg ++ pre` — the earlier
insertions of the same call are kept, nothing later is examined, and the
existing registration under a duplicated name is untouched. -/
theorem register_eager_failfast (reg pre rest : List Migration) (mig : Migration)
    (hpre : acceptsFrom reg pre = true) :
    (mig.name = "" →
      register reg (pre ++ mig :: rest) =
        (reg ++ pre, some QError.migrationNameNotProvided)) ∧
    (mig.name ≠ "" → (lookupMigration (reg ++ pre) mig.name).isSome = true →
      register reg (pre ++ mig :: rest) =
        (reg ++ pre, some (QError.duplicateRegistration mig.name))) := by
  constructor
  · intro hname
    rw [register_append_ok hpre]
    unfold register
    rw [if_pos hname]
  · intro hname hdup
    rw [register_append_ok hpre]
    unfold register
    rw [if_neg hname, if_pos hdup]

/-- Witness for C6: registering `[b, a]` into a registry already holding
`a` keeps `b` (inserted before the failure) and leaves the original `a`
untouched; registering a nameless migration errors likewise. -/
theorem register_eager_failfast_witness :
    register [exampleA] [exampleB, exampleA, exampleC] =
      ([exampleA, exampleB], some (QError.duplicateRegistration "20240101_a")) ∧
    register [exampleA] [exampleB,
        { name := "", upScript := "x", downScript := "y" }, exampleC] =
      ([exampleA, exampleB], some QError.migrationNameNotProvided) := by
  constructor
  · have h := (register_eager_failfast [exampleA] [exampleB] [exampleC] exampleA
      (by decide)).2 (by decide) (by decide)
    simpa using h
  · have h := (register_eager_failfast [exampleA] [exampleB] [exampleC]
      { name := "", upScript := "x", downScript := "y" } (by decide)).1 rfl
    simpa using h

/-! ### ApplyMigrations structure lemmas -/

theorem applyMigrations_cons_ok {env : Env} {m : Migration}
    (h : applyStepOk env m = true) (st : DriverState) (rest : List Migration) :
    applyMigrations env st (m :: rest) =
      ((applyMigrations env
          { rows := st.rows ++ [{ name := m.name, executedAt := st.now }],
            now := st.now + 1 } rest).1,
       Event.hookRunning m.name ::
         execSqlEvents m.upScript ++
           Event.insertRow m.name :: Event.hookSuccess m.name ::
             (applyMigrations env
                { rows := st.rows ++ [{ name := m.name, executedAt := st.now }],
                  now := st.now + 1 } rest).2.1,
       (applyMigrations env
          { rows := st.rows ++ [{ name := m.name, executedAt := st.now }],
            now := st.now + 1 } rest).2.2) := by
  unfold applyStepOk at h
  simp only [Bool.and_eq_true, Option.isNone_iff_eq_none] at h
  obtain ⟨hexec, hins⟩ := h
  simp [applyMigrations, hexec, insertExecutedMigration, hins]

theorem applyMigrations_append_ok {env : Env} {pre : List Migration}
    (hpre : ∀ m ∈ pre, applyStepOk env m = true) :
    ∀ (st : DriverState) (ms : List Migration),
      applyMigrations env st (pre ++ ms) =
        ((applyMigrations env (recordAll st pre) ms).1,
         okApplyEvents pre ++ (applyMigrations env (recordAll st pre) ms).2.1,
         (applyMigrations env (recordAll st pre) ms).2.2) := by
  induction pre with
  | nil => intro st ms; simp [recordAll, okApplyEvents]
  | cons m pre ih =>
      intro st ms
      have hm : applyStepOk env m = true := hpre m (by simp)
      have hrest : ∀ x ∈ pre, applyStepOk env x = true := fun x hx =>
        hpre x (by simp [hx])
      rw [List.cons_append, applyMigrations_cons_ok hm, ih hrest]
      simp [recordAll, okApplyEvents]

theorem applyMigrations_fail_cons {env : Env} {mig : Migration}
    (h : applyStepOk env mig = false) (st : DriverState) (post : List Migration) :
    ∃ e : QError, e.wrappedName = some mig.name ∧
      applyMigrations env st (mig :: post) =
        (st,
         Event.hookRunning mig.name ::
           execSqlEvents mig.upScript ++ [Event.hookFailed mig.name],
         some e) := by
  unfold applyStepOk at h
  rcases hexec : executeMigrationSQL env mig.upScript with _ | msg
  · rcases hins : env.insertFail mig.name with _ | msg
    · rw [hexec, hins] at h; simp at h
    · refine ⟨QError.recordFailed mig.name msg, rfl, ?_⟩
      simp [applyMigrations, hexec, insertExecutedMigration, hins]
  · refine ⟨QError.applyFailed mig.name msg, rfl, ?_⟩
    simp [applyMigrations, hexec]

theorem recordAll_rows_names :
    ∀ (migs : List Migration) (st : DriverState),
      (recordAll st migs).rows.map (fun r => r.name) =
        st.rows.map (fun r => r.name) ++ migs.map (fun m => m.name) := by
  intro migs
  induction migs with
  | nil => intro st; simp [recordAll]
  | cons m rest ih =>
      intro st
      rw [recordAll, ih]
      simp

theorem hookRunning_mem_okApplyEvents {n : String} :
    ∀ {l : List Migration}, Event.hookRunning n ∈ okApplyEvents l →
      n ∈ l.map (fun m => m.name) := by
  intro l
  induction l with
  | nil => intro h; simp [okApplyEvents] at h
  | cons m rest ih =>
      intro h
      by_cases hsql : m.upScript = "" <;>
        simp only [okApplyEvents, execSqlEvents, hsql, if_true, if_false,
          List.nil_append, List.cons_append, List.mem_cons, List.not_mem_nil,
          Event.hookRunning.injEq, reduceCtorEq, false_or, or_false] at h <;>
      · rcases h with h | h
        · simp [h]
        · simp [ih h]

theorem applyMigrations_none_rows {env : Env} :
    ∀ (migs : List Migration) (st : DriverState),
      (applyMigrations env st migs).2.2 = none →
      (applyMigrations env st migs).1.rows.map (fun r => r.name) =
        st.rows.map (fun r => r.name) ++ migs.map (fun m => m.name) := by
  intro migs
  induction migs with
  | nil => intro st _; simp [applyMigrations]
  | cons m rest ih =>
      intro st h
      rcases hexec : executeMigrationSQL env m.upScript with _ | msg
      · rcases hins : env.insertFail m.name with _ | msg
        · rw [applyMigrations_cons_ok (by simp [applyStepOk, hexec, hins])] at h ⊢
          simp only at h ⊢
          rw [ih _ h]
          simp
        · exfalso
          simp [applyMigrations, hexec, insertExecutedMigration, hins] at h
      · exfalso
        simp [applyMigrations, hexec] at h

/-! ### C2: fail-fast partial application -/

/-- C2: if in a batch `pre ++ mig :: post` (with pairwise-distinct names, as
the registry guarantees) every migration of `pre` succeeds and `mig`'s
forward script or bookkeeping insert fails, then `ApplyMigrations` returns
an error wrapped with `mig`'s name, invokes `onFailed` for `mig`, leaves
every migration of `pre` applied and recorded as executed, and never
attempts any migration of `post` (its `onRunning` hook is never invoked). -/
theorem applyMigrations_fail_fast (env : Env) (st : DriverState)
    (pre post : List Migration) (mig : Migration)
    (hpre : ∀ m ∈ pre, applyStepOk env m = true)
    (hfail : applyStepOk env mig = false)
    (hnodup : ((pre ++ mig :: post).map (fun m => m.name)).Nodup) :
    ∃ e : QError,
      (applyMigrations env st (pre ++ mig :: post)).2.2 = some e ∧
      e.wrappedName = some mig.name ∧
      Event.hookFailed mig.name ∈ (applyMigrations env st (pre ++ mig :: post)).2.1 ∧
      (applyMigrations env st (pre ++ mig :: post)).1.rows.map (fun r => r.name) =
        st.rows.map (fun r => r.name) ++ pre.map (fun m => m.name) ∧
      ∀ m ∈ post,
        Event.hookRunning m.name ∉ (applyMigrations env st (pre ++ mig :: post)).2.1 := by
  obtain ⟨e, hwrap, heq⟩ := applyMigrations_fail_cons hfail (recordAll st pre) post
  have hsplit := applyMigrations_append_ok hpre st (mig :: post)
  rw [heq] at hsplit
  rw [List.map_append, List.nodup_append] at hnodup
  obtain ⟨-, hnodup2, hdisj⟩ := hnodup
  simp only [List.map_cons, List.nodup_cons] at hnodup2
  obtain ⟨hmigpost, -⟩ := hnodup2
  refine ⟨e, by rw [hsplit], hwrap, ?_, ?_, ?_⟩
  · rw [hsplit]
    simp
  · rw [hsplit]
    exact recordAll_rows_names pre st
  · intro m hm
    have hmpost : m.name ∈ post.map (fun x => x.name) := List.mem_map.mpr ⟨m, hm, rfl⟩
    have hmpre : m.name ∉ pre.map (fun x => x.name) := by
      intro hin
      exact hdisj hin (by simp [hmpost])
    have hmne : m.name ≠ mig.name := by
      intro hEq
      exact hmigpost (hEq ▸ hmpost)
    rw [hsplit]
    intro hmem
    rcases List.mem_append.mp hmem with hmem | hmem
    · exact hmpre (hookRunning_mem_okApplyEvents hmem)
    · rcases List.mem_cons.mp hmem with hmem | hmem
      · exact hmne (by injection hmem)
      · rcases List.mem_append.mp hmem with hmem | hmem
        · unfold execSqlEvents at hmem
          by_cases hsql : mig.upScript = "" <;> simp [hsql] at hmem
        · simp at hmem

/-- Witness for C2: a three-migration batch whose second migration's script
fails; the first stays recorded, the second's `onFailed` fires, the third is
never attempted. -/
theorem applyMigrations_fail_fast_witness :
    ∃ e : QError,
      (applyMigrations (Env.mk (fun s => if s = "CREATE TABLE b (id INT)" then some "boom" else none)
          (fun _ => none) (fun _ => none))
          { rows := [], now := 0 } ([exampleA] ++ exampleB :: [exampleC])).2.2 = some e ∧
      e.wrappedName = some "20240102_b" ∧
      Event.hookFailed "20240102_b" ∈
        (applyMigrations (Env.mk (fun s => if s = "CREATE TABLE b (id INT)" then some "boom" else none)
          (fun _ => none) (fun _ => none))
          { rows := [], now := 0 } ([exampleA] ++ exampleB :: [exampleC])).2.1 ∧
      (applyMigrations (Env.mk (fun s => if s = "CREATE TABLE b (id INT)" then some "boom" else none)
          (fun _ => none) (fun _ => none))
          { rows := [], now := 0 } ([exampleA] ++ exampleB :: [exampleC])).1.rows.map (fun r => r.name) =
        ([] : List ExecutedMigration).map (fun r => r.name) ++ [exampleA].map (fun m => m.name) ∧
      ∀ m ∈ [exampleC],
        Event.hookRunning m.name ∉
          (applyMigrations (Env.mk (fun s => if s = "CREATE TABLE b (id INT)" then some "boom" else none)
            (fun _ => none) (fun _ => none))
            { rows := [], now := 0 } ([exampleA] ++ exampleB :: [exampleC])).2.1 :=
  applyMigrations_fail_fast
    (Env.mk (fun s => if s = "CREATE TABLE b (id INT)" then some "boom" else none)
      (fun _ => none) (fun _ => none))
    { rows := [], now := 0 } [exampleA] [exampleC] exampleB
    (by decide) (by decide) (by decide)

/-! ### C1: Migrate twice applies nothing the second time -/

theorem migrate_empty (env : Env) (reg : List Migration) (st : DriverState)
    (h : migrationsToApply reg (getExecutedMigrations st false) = []) :
    migrate env reg st = (st, [Event.createTable, Event.getExecuted false], none) := by
  unfold migrate
  simp [h]

theorem migrate_nonempty (env : Env) (reg : List Migration) (st : DriverState)
    (h : ¬migrationsToApply reg (getExecutedMigrations st false) = []) :
    migrate env reg st =
      ((applyMigrations env st (migrationsToApply reg (getExecutedMigrations st false))).1,
       Event.createTable :: Event.getExecuted false ::
         Event.applyCall
           ((migrationsToApply reg (getExecutedMigrations st false)).map (fun m => m.name)) ::
           (applyMigrations env st
             (migrationsToApply reg (getExecutedMigrations st false))).2.1,
       (applyMigrations env st
         (migrationsToApply reg (getExecutedMigrations st false))).2.2) := by
  unfold migrate
  simp [h]

theorem mem_migrationsToApply_names {reg : List Migration}
    {executed : List ExecutedMigration} {k : String}
    (hk : k ∈ reg.map (fun m => m.name))
    (hnot : k ∉ executed.map (fun e => e.name)) :
    k ∈ (migrationsToApply reg executed).map (fun m => m.name) := by
  obtain ⟨m, hm⟩ := Option.isSome_iff_exists.mp (lookupMigration_isSome.mpr hk)
  have hmk : m.name = k := lookupMigration_name hm
  refine List.mem_map.mpr ⟨m, ?_, hmk⟩
  unfold migrationsToApply
  refine List.mem_filterMap.mpr ⟨k, mem_getSortedMigrationName.mpr hk, ?_⟩
  rw [hm]
  show (if (executed.map (fun e => e.name)).contains m.name = true then none
        else some m) = some m
  rw [hmk]
  simp [hnot]

theorem migrationsToApply_eq_nil {reg : List Migration}
    {executed : List ExecutedMigration}
    (h : ∀ k ∈ reg.map (fun m => m.name), k ∈ executed.map (fun e => e.name)) :
    migrationsToApply reg executed = [] := by
  unfold migrationsToApply
  rw [List.filterMap_eq_nil_iff]
  intro k hk
  have hkreg : k ∈ reg.map (fun m => m.name) := mem_getSortedMigrationName.mp hk
  obtain ⟨m, hm⟩ := Option.isSome_iff_exists.mp (lookupMigration_isSome.mpr hkreg)
  rw [hm]
  have hmk : m.name = k := lookupMigration_name hm
  show (if (executed.map (fun e => e.name)).contains m.name = true then none
        else some m) = none
  rw [hmk]
  simp [h k hkreg]

theorem migrate_none_covers {env : Env} {reg : List Migration}
    {st : DriverState} (h : (migrate env reg st).2.2 = none) :
    ∀ k ∈ reg.map (fun m => m.name),
      k ∈ (migrate env reg st).1.rows.map (fun r => r.name) := by
  intro k hk
  by_cases hE : migrationsToApply reg (getExecutedMigrations st false) = []
  · rw [migrate_empty env reg st hE]
    by_cases hex : k ∈ (getExecutedMigrations st false).map (fun e => e.name)
    · exact mem_name_getExecutedMigrations.mp hex
    · have := mem_migrationsToApply_names hk hex
      rw [hE] at this
      simp at this
  · rw [migrate_nonempty env reg st hE] at h ⊢
    have hrows := applyMigrations_none_rows
      (migrationsToApply reg (getExecutedMigrations st false)) st h
    simp only [hrows, List.mem_append]
    by_cases hex : k ∈ (getExecutedMigrations st false).map (fun e => e.name)
    · exact Or.inl (mem_name_getExecutedMigrations.mp hex)
    · exact Or.inr (mem_migrationsToApply_names hk hex)

/-- C1: whenever a `Migrate` call completes without error, an immediately
following `Migrate` finds an empty pending set (every sorted registered name
is already recorded as executed), so it applies zero migrations and never
invokes the driver's `ApplyMigrations` — its trace holds only the
table-creation and executed-fetch calls, and the driver state is unchanged. -/
theorem migrate_twice_idempotent (env : Env) (reg : List Migration)
    (st : DriverState) (h : (migrate env reg st).2.2 = none) :
    migrationsToApply reg (getExecutedMigrations (migrate env reg st).1 false) = [] ∧
    migrate env reg (migrate env reg st).1 =
      ((migrate env reg st).1, [Event.createTable, Event.getExecuted false], none) := by
  have hnil :
      migrationsToApply reg (getExecutedMigrations (migrate env reg st).1 false) = [] :=
    migrationsToApply_eq_nil (fun k hk =>
      mem_name_getExecutedMigrations.mpr (migrate_none_covers h k hk))
  exact ⟨hnil, migrate_empty env reg (migrate env reg st).1 hnil⟩

/-- Witness for C1: a concrete first `Migrate` run from an empty database,
after which the second run's pending set is empty and the second call makes
no `ApplyMigrations` call. -/
theorem migrate_twice_idempotent_witness :
    migrationsToApply exampleReg
      (getExecutedMigrations (migrate envOk exampleReg { rows := [], now := 0 }).1 false) = [] ∧
    migrate envOk exampleReg (migrate envOk exampleReg { rows := [], now := 0 }).1 =
      ((migrate envOk exampleReg { rows := [], now := 0 }).1,
       [Event.createTable, Event.getExecuted false], none) :=
  migrate_twice_idempotent envOk exampleReg { rows := [], now := 0 } (by decide)

/-! ### C5: Reset with zero executed migrations -/

theorem map_name_filterMap {l : List String} {f : String → Option Migration}
    (h : ∀ n ∈ l, ∃ m, f n = some m ∧ m.name = n) :
    (l.filterMap f).map (fun m => m.name) = l := by
  induction l with
  | nil => simp
  | cons a l ih =>
      obtain ⟨m, hm, hname⟩ := h a (by simp)
      rw [List.filterMap_cons, hm]
      simp only [List.map_cons, hname]
      rw [ih (fun n hn => h n (by simp [hn]))]

theorem migrationsToApply_nil_executed {reg : List Migration} :
    (migrationsToApply reg []).map (fun m => m.name) = getSortedMigrationName reg := by
  unfold migrationsToApply
  apply map_name_filterMap
  intro n hn
  have hkreg := mem_getSortedMigrationName.mp hn
  obtain ⟨m, hm⟩ := Option.isSome_iff_exists.mp (lookupMigration_isSome.mpr hkreg)
  refine ⟨m, ?_, lookupMigration_name hm⟩
  rw [hm]
  show (if (([] : List ExecutedMigration).map (fun e => e.name)).contains m.name = true
        then none else some m) = some m
  simp

theorem getExecutedMigrations_nil {st : DriverState} (h : st.rows = [])
    (rev : Bool) : getExecutedMigrations st rev = [] := by
  unfold getExecutedMigrations
  cases rev <;> simp [h]

/-- C5: when the driver reports zero executed migrations, `Reset` is a
no-op — it returns after the single executed-fetch, making no
`CleanDatabase`, `UnapplyMigrations` or `ApplyMigrations` call and leaving
the driver state unchanged — while a `Migrate` call in the same situation
still targets every registered migration (its pending set is the full
sorted registry, and it hands exactly that list to `ApplyMigrations`). -/
theorem reset_zero_executed (env : Env) (reg : List Migration)
    (st : DriverState) (h : st.rows = []) :
    reset env reg st = (st, [Event.getExecuted true], none) ∧
    (migrationsToApply reg (getExecutedMigrations st false)).map (fun m => m.name) =
      getSortedMigrationName reg ∧
    (reg ≠ [] →
      Event.applyCall (getSortedMigrationName reg) ∈ (migrate env reg st).2.1) := by
  have hnames :
      (migrationsToApply reg (getExecutedMigrations st false)).map (fun m => m.name) =
        getSortedMigrationName reg := by
    rw [getExecutedMigrations_nil h false]
    exact migrationsToApply_nil_executed
  refine ⟨?_, hnames, ?_⟩
  · unfold reset
    simp [getExecutedMigrations_nil h true]
  · intro hreg
    have hne : ¬migrationsToApply reg (getExecutedMigrations st false) = [] := by
      intro hnil
      rw [hnil] at hnames
      have hlen := congrArg List.length hnames
      simp only [List.map_nil, List.length_nil, getSortedMigrationName,
        List.length_insertionSort, List.length_map] at hlen
      exact hreg (List.length_eq_zero.mp hlen.symm)
    rw [migrate_nonempty env reg st hne, hnames]
    simp

/-- Witness for C5: the example registry against an empty database. -/
theorem reset_zero_executed_witness :
    reset envOk exampleReg { rows := [], now := 0 } =
      ({ rows := [], now := 0 }, [Event.getExecuted true], none) ∧
    (migrationsToApply exampleReg
        (getExecutedMigrations { rows := [], now := 0 } false)).map (fun m => m.name) =
      getSortedMigrationName exampleReg ∧
    (exampleReg ≠ [] →
      Event.applyCall (getSortedMigrationName exampleReg) ∈
        (migrate envOk exampleReg { rows := [], now := 0 }).2.1) :=
  reset_zero_executed envOk exampleReg { rows := [], now := 0 } rfl

/-! ### UnapplyMigrations structure lemmas -/

theorem unapplyMigrations_cons_ok {env : Env} {m : Migration}
    (h : unapplyStepOk env m = true) (st : DriverState) (rest : List Migration) :
    unapplyMigrations env st (m :: rest) =
      ((unapplyMigrations env
          { st with rows := st.rows.filter (fun r => r.name ≠ m.name) } rest).1,
       Event.hookRunning m.name ::
         execSqlEvents m.downScript ++
           Event.deleteRow m.name :: Event.hookSuccess m.name ::
             (unapplyMigrations env
                { st with rows := st.rows.filter (fun r => r.name ≠ m.name) } rest).2.1,
       (unapplyMigrations env
          { st with rows := st.rows.filter (fun r => r.name ≠ m.name) } rest).2.2) := by
  unfold unapplyStepOk at h
  simp only [Bool.and_eq_true, Option.isNone_iff_eq_none] at h
  obtain ⟨hexec, hdel⟩ := h
  simp [unapplyMigrations, hexec, removeExecutedMigration, hdel]

theorem unapplyMigrations_allOk {env : Env} {migs : List Migration}
    (h : ∀ m ∈ migs, unapplyStepOk env m = true) :
    ∀ st : DriverState,
      unapplyMigrations env st migs = (removeAll st migs, okUnapplyEvents migs, none) := by
  induction migs with
  | nil => intro st; simp [unapplyMigrations, removeAll, okUnapplyEvents]
  | cons m rest ih =>
      intro st
      have hm : unapplyStepOk env m = true := h m (by simp)
      have hrest : ∀ x ∈ rest, unapplyStepOk env x = true := fun x hx =>
        h x (by simp [hx])
      rw [unapplyMigrations_cons_ok hm, ih hrest]
      simp [removeAll, okUnapplyEvents]

theorem envOk_unapplyStepOk (m : Migration) : unapplyStepOk envOk m = true := by
  unfold unapplyStepOk executeMigrationSQL envOk
  by_cases h : m.downScript = "" <;> simp [h]

theorem countP_success_okUnapplyEvents :
    ∀ migs : List Migration,
      (okUnapplyEvents migs).countP isSuccessHook = migs.length := by
  intro migs
  induction migs with
  | nil => simp [okUnapplyEvents]
  | cons m rest ih =>
      unfold okUnapplyEvents execSqlEvents
      by_cases h : m.downScript = "" <;>
        simp [h, List.countP_cons, List.countP_append, isSuccessHook, ih,
          Nat.add_comm]

theorem removeAll_rows :
    ∀ (migs : List Migration) (st : DriverState),
      (removeAll st migs).rows =
        st.rows.filter (fun r => !(migs.map (fun m => m.name)).contains r.name) := by
  intro migs
  induction migs with
  | nil => intro st; simp [removeAll]
  | cons m rest ih =>
      intro st
      rw [removeAll, ih]
      simp only [List.filter_filter]
      apply List.filter_congr
      intro r _
      by_cases h1 : r.name = m.name <;>
        by_cases h2 : (rest.map (fun x => x.name)).contains r.name <;>
          simp [h1, h2]

/-! ### Rollback structure lemmas -/

theorem selectRollback_step_found {reg : List Migration}
    {e : ExecutedMigration} {m : Migration} (hm : lookupMigration reg e.name = some m)
    (rest : List ExecutedMigration) :
    selectRollback reg (e :: rest) =
      (m :: (selectRollback reg rest).1, (selectRollback reg rest).2) := by
  conv_lhs => unfold selectRollback; rw [hm]

theorem selectRollback_all_found {reg : List Migration} :
    ∀ {l : List ExecutedMigration},
      (∀ e ∈ l, (lookupMigration reg e.name).isSome = true) →
      (selectRollback reg l).1.map (fun m => m.name) = l.map (fun e => e.name) ∧
      (selectRollback reg l).2 = [] := by
  intro l
  induction l with
  | nil => intro _; simp [selectRollback]
  | cons e rest ih =>
      intro h
      obtain ⟨m, hm⟩ := Option.isSome_iff_exists.mp (h e (by simp))
      have hrest := ih (fun x hx => h x (by simp [hx]))
      rw [selectRollback_step_found hm]
      simp only [List.map_cons]
      exact ⟨by rw [lookupMigration_name hm, hrest.1], hrest.2⟩

theorem rollbackTargets_nil_executed {reg : List Migration} {st : DriverState}
    {step : Int} (h : getExecutedMigrations st true = []) :
    rollbackTargets reg st step = ([], []) := by
  unfold rollbackTargets
  rw [h]
  simp [selectRollback]

theorem rollback_no_executed (env : Env) (reg : List Migration)
    (st : DriverState) (step : Int) (hpos : ¬step ≤ 0)
    (h : getExecutedMigrations st true = []) :
    rollback env reg st step = (st, [Event.getExecuted true], none) := by
  unfold rollback
  rw [if_neg hpos]
  simp [h]

theorem rollback_run (env : Env) (reg : List Migration) (st : DriverState)
    (step : Int) (hpos : ¬step ≤ 0)
    (hne : ¬(rollbackTargets reg st step).1 = []) :
    rollback env reg st step =
      ((unapplyMigrations env st (rollbackTargets reg st step).1).1,
       Event.getExecuted true ::
         (rollbackTargets reg st step).2 ++
           Event.unapplyCall
             ((rollbackTargets reg st step).1.map (fun m => m.name)) ::
               (unapplyMigrations env st (rollbackTargets reg st step).1).2.1,
       (unapplyMigrations env st (rollbackTargets reg st step).1).2.2) := by
  have hexe : ¬(getExecutedMigrations st true) = [] := by
    intro hemp
    exact hne (by rw [rollbackTargets_nil_executed hemp])
  unfold rollback
  rw [if_neg hpos]
  simp [hexe, hne, List.isEmpty_iff]

/-! ### C4: Rollback clamps over-large steps -/

/-- C4: for every `step` strictly greater than the number of executed
migrations, when every executed name is registered and the database
statements succeed, `Rollback` clamps the step to the executed count: it
returns no error, invokes `onSuccess` exactly `executedCount` times (one
per unapplied migration), and removes every bookkeeping row. -/
theorem rollback_over_large_step (reg : List Migration) (st : DriverState)
    (step : Int) (hstep : (st.rows.length : Int) < step)
    (hreg : ∀ e ∈ st.rows, (lookupMigration reg e.name).isSome = true) :
    (rollback envOk reg st step).2.2 = none ∧
    (rollback envOk reg st step).2.1.countP isSuccessHook = st.rows.length ∧
    (rollback envOk reg st step).1.rows = [] := by
  have hpos : ¬step ≤ 0 := by omega
  by_cases hrows : st.rows = []
  · rw [rollback_no_executed envOk reg st step hpos (getExecutedMigrations_nil hrows true)]
    refine ⟨rfl, ?_, by rw [hrows]⟩
    simp [hrows, List.countP_cons, isSuccessHook]
  · have hlen : (getExecutedMigrations st true).length = st.rows.length :=
      length_getExecutedMigrations
    have hstepN : rollbackStepN st step = (getExecutedMigrations st true).length := by
      have hcond : ((getExecutedMigrations st true).length : Int) < step := by
        rw [hlen]; exact hstep
      unfold rollbackStepN
      simp [hcond]
    have htake : (getExecutedMigrations st true).take (rollbackStepN st step) =
        getExecutedMigrations st true := by
      rw [hstepN]
      exact List.take_length _
    have hall : ∀ e ∈ getExecutedMigrations st true,
        (lookupMigration reg e.name).isSome = true := fun e he =>
      hreg e (mem_getExecutedMigrations.mp he)
    have hsel := selectRollback_all_found hall
    have htargets1 : (rollbackTargets reg st step).1.map (fun m => m.name) =
        (getExecutedMigrations st true).map (fun e => e.name) := by
      unfold rollbackTargets
      rw [htake]
      exact hsel.1
    have htargets2 : (rollbackTargets reg st step).2 = [] := by
      unfold rollbackTargets
      rw [htake]
      exact hsel.2
    have htlen : (rollbackTargets reg st step).1.length = st.rows.length := by
      have hmap := congrArg List.length htargets1
      simpa [hlen] using hmap
    have hne : ¬(rollbackTargets reg st step).1 = [] := by
      intro hnil
      rw [hnil] at htlen
      exact hrows (List.length_eq_zero.mp htlen.symm)
    rw [rollback_run envOk reg st step hpos hne,
      unapplyMigrations_allOk (fun m _ => envOk_unapplyStepOk m) st]
    refine ⟨rfl, ?_, ?_⟩
    · rw [htargets2]
      simp [List.countP_cons, isSuccessHook, countP_success_okUnapplyEvents, htlen]
    · rw [removeAll_rows]
      rw [List.filter_eq_nil_iff]
      intro r hr
      have hrname : r.name ∈ (rollbackTargets reg st step).1.map (fun m => m.name) := by
        rw [htargets1]
        exact List.mem_map.mpr ⟨r, mem_getExecutedMigrations.mpr hr, rfl⟩
      simp [hrname]

/-- Witness for C4: two executed rows, step 5 — both rows are unapplied and
no error is returned. -/
theorem rollback_over_large_step_witness :
    (rollback envOk exampleReg exampleSt 5).2.2 = none ∧
    (rollback envOk exampleReg exampleSt 5).2.1.countP isSuccessHook =
      exampleSt.rows.length ∧
    (rollback envOk exampleReg exampleSt 5).1.rows = [] :=
  rollback_over_large_step exampleReg exampleSt 5 (by decide) (by decide)

/-! ### C7: Rollback order, skipping and unapply protocol -/

theorem selectRollback_eq {reg : List Migration} :
    ∀ l : List ExecutedMigration,
      (selectRollback reg l).1 = l.filterMap (fun e => lookupMigration reg e.name) ∧
      (selectRollback reg l).2 =
        (l.filter (fun e => (lookupMigration reg e.name).isNone)).map
          (fun e => Event.warnNotFound e.name) := by
  intro l
  induction l with
  | nil => simp [selectRollback]
  | cons e rest ih =>
      rcases hm : lookupMigration reg e.name with _ | m
      · have hstep : selectRollback reg (e :: rest) =
            ((selectRollback reg rest).1,
             Event.warnNotFound e.name :: (selectRollback reg rest).2) := by
          conv_lhs => unfold selectRollback; rw [hm]
        rw [hstep]
        simp [List.filterMap_cons, List.filter_cons, hm, ih.1, ih.2]
      · rw [selectRollback_step_found hm]
        simp [List.filterMap_cons, List.filter_cons, hm, ih.1, ih.2]

/-- C7: `Rollback` fetches the executed rows in descending name order, warns
about — and skips, without failing — every executed name among the first
clamped-`step` rows that is absent from the registry, and hands exactly the
registered ones, in that same descending order, to `UnapplyMigrations`; any
returned error comes from the unapply run alone, and under succeeding
database statements each selected migration is processed by running its
`DownScript` followed by the bookkeeping delete, between its `onRunning` and
`onSuccess` hooks (`okUnapplyEvents`). -/
theorem rollback_desc_skips (env : Env) (reg : List Migration)
    (st : DriverState) (step : Int) (hpos : ¬step ≤ 0)
    (hne : ¬(rollbackTargets reg st step).1 = []) :
    (rollbackTargets reg st step).1 =
      ((getExecutedMigrations st true).take (rollbackStepN st step)).filterMap
        (fun e => lookupMigration reg e.name) ∧
    (rollbackTargets reg st step).2 =
      (((getExecutedMigrations st true).take (rollbackStepN st step)).filter
        (fun e => (lookupMigration reg e.name).isNone)).map
          (fun e => Event.warnNotFound e.name) ∧
    rollback env reg st step =
      ((unapplyMigrations env st (rollbackTargets reg st step).1).1,
       Event.getExecuted true ::
         (rollbackTargets reg st step).2 ++
           Event.unapplyCall
             ((rollbackTargets reg st step).1.map (fun m => m.name)) ::
               (unapplyMigrations env st (rollbackTargets reg st step).1).2.1,
       (unapplyMigrations env st (rollbackTargets reg st step).1).2.2) ∧
    rollback envOk reg st step =
      (removeAll st (rollbackTargets reg st step).1,
       Event.getExecuted true ::
         (rollbackTargets reg st step).2 ++
           Event.unapplyCall
             ((rollbackTargets reg st step).1.map (fun m => m.name)) ::
               okUnapplyEvents (rollbackTargets reg st step).1,
       none) := by
  have hsel := @selectRollback_eq reg
    ((getExecutedMigrations st true).take (rollbackStepN st step))
  refine ⟨hsel.1, hsel.2, rollback_run env reg st step hpos hne, ?_⟩
  rw [rollback_run envOk reg st step hpos hne,
    unapplyMigrations_allOk (fun m _ => envOk_unapplyStepOk m) st]

/-- Witness for C7: rows `a`, `b`, `c` executed but only `a` and `c`
registered; `Rollback 2` works on the descending pair `c`, `b`: it warns
about `b`, unapplies exactly `c`, and returns no error. -/
theorem rollback_desc_skips_witness :
    (rollbackTargets [exampleA, exampleC] exampleSt3 2).1 = [exampleC] ∧
    (rollbackTargets [exampleA, exampleC] exampleSt3 2).2 =
      [Event.warnNotFound "20240102_b"] ∧
    (rollback envOk [exampleA, exampleC] exampleSt3 2).2.2 = none := by
  have h := rollback_desc_skips envOk [exampleA, exampleC] exampleSt3 2
    (by decide) (by decide)
  exact ⟨h.1.trans (by decide), h.2.1.trans (by decide), by rw [h.2.2.2]⟩

/-! ### The embedded string order is total and transitive -/

theorem charListLe_total : ∀ as bs : List Char,
    charListLe as bs = true ∨ charListLe bs as = true := by
  intro as
  induction as with
  | nil => intro bs; left; simp [charListLe]
  | cons a as ih =>
      intro bs
      cases bs with
      | nil => right; simp [charListLe]
      | cons b bs =>
          by_cases h1 : a.toNat < b.toNat
          · left; simp [charListLe, h1]
          · by_cases h2 : b.toNat < a.toNat
            · right; simp [charListLe, h2]
            · rcases ih bs with h | h
              · left; simp [charListLe, h1, h2, h]
              · right; simp [charListLe, h1, h2, h]

theorem charListLe_trans : ∀ {as bs cs : List Char},
    charListLe as bs = true → charListLe bs cs = true →
    charListLe as cs = true := by
  intro as
  induction as with
  | nil => intro bs cs _ _; simp [charListLe]
  | cons a as ih =>
      intro bs cs h1 h2
      cases bs with
      | nil => simp [charListLe] at h1
      | cons b bs =>
          cases cs with
          | nil => simp [charListLe] at h2
          | cons c cs =>
              simp only [charListLe] at h1 h2 ⊢
              by_cases hab : a.toNat < b.toNat
              · by_cases hbc : b.toNat < c.toNat
                · rw [if_pos (by omega)]
                · by_cases hcb : c.toNat < b.toNat
                  · simp [hbc, hcb] at h2
                  · rw [if_pos (by omega)]
              · by_cases hba : b.toNat < a.toNat
                · simp [hab, hba] at h1
                · by_cases hbc : b.toNat < c.toNat
                  · rw [if_pos (by omega)]
                  · by_cases hcb : c.toNat < b.toNat
                    · simp [hbc, hcb] at h2
                    · rw [if_neg (by omega), if_neg (by omega)]
                      simp only [hab, hba, if_false] at h1
                      simp only [hbc, hcb, if_false] at h2
                      exact ih h1 h2

theorem strLe_total (a b : String) : strLe a b = true ∨ strLe b a = true :=
  charListLe_total a.data b.data

theorem strLe_trans {a b c : String} (h1 : strLe a b = true)
    (h2 : strLe b c = true) : strLe a c = true :=
  charListLe_trans h1 h2

instance : IsTotal String (fun a b => strLe a b = true) := ⟨strLe_total⟩

instance : IsTrans String (fun a b => strLe a b = true) :=
  ⟨fun _ _ _ => strLe_trans⟩

/-! ### C8: List output -/

theorem map_proj_filterMap {α : Type} (g : α → String) :
    ∀ {l : List String} {f : String → Option α},
      (∀ n ∈ l, ∃ x, f n = some x ∧ g x = n) →
      (l.filterMap f).map g = l := by
  intro l
  induction l with
  | nil => intro f _; simp
  | cons a l ih =>
      intro f h
      obtain ⟨x, hx, hname⟩ := h a (by simp)
      rw [List.filterMap_cons, hx]
      simp only [List.map_cons, hname]
      rw [ih (fun n hn => h n (by simp [hn]))]

theorem listMigrations_fst (reg : List Migration) (st : DriverState) :
    (listMigrations reg st).1 =
      (getSortedMigrationName reg).filterMap (fun k =>
        (lookupMigration reg k).map (fun m =>
          ({ name := m.name, upScript := m.upScript, downScript := m.downScript,
             isExecuted := (((getExecutedMigrations st false).reverse.find?
               (fun e => e.name = m.name)).map (fun e => e.executedAt)).isSome,
             executedAt := ((getExecutedMigrations st false).reverse.find?
               (fun e => e.name = m.name)).map (fun e => e.executedAt) } :
            RegisteredMigration))) := rfl

/-- C8: `List` returns exactly the registered migrations in ascending name
order — the result's names are the sorted registry keys, and that name list
is sorted for the embedded string order — each entry marked executed
exactly when a bookkeeping row of the same name exists, carrying that row's
timestamp when executed and no timestamp otherwise; on the spec's example
(`a`, `b` executed, `c` not), the output is `a`, `b`, `c` in order with `a`
and `b` marked executed. -/
theorem listMigrations_spec (reg : List Migration) (st : DriverState) :
    (listMigrations reg st).1.map (fun r => r.name) = getSortedMigrationName reg ∧
    List.Sorted (fun a b => strLe a b = true)
      ((listMigrations reg st).1.map (fun r => r.name)) ∧
    (∀ r ∈ (listMigrations reg st).1,
      (r.isExecuted = true ↔ r.name ∈ st.rows.map (fun e => e.name)) ∧
      (r.isExecuted = false → r.executedAt = none) ∧
      (∀ t, r.executedAt = some t →
        ({ name := r.name, executedAt := t } : ExecutedMigration) ∈ st.rows)) ∧
    (listMigrations exampleReg exampleSt).1 =
      [{ name := "20240101_a", upScript := "CREATE TABLE a (id INT)",
         downScript := "DROP TABLE a", isExecuted := true, executedAt := some 1 },
       { name := "20240102_b", upScript := "CREATE TABLE b (id INT)",
         downScript := "DROP TABLE b", isExecuted := true, executedAt := some 2 },
       { name := "20240103_c", upScript := "CREATE TABLE c (id INT)",
         downScript := "DROP TABLE c", isExecuted := false, executedAt := none }] := by
  have hnames :
      (listMigrations reg st).1.map (fun r => r.name) = getSortedMigrationName reg := by
    rw [listMigrations_fst]
    apply map_proj_filterMap
    intro n hn
    have hkreg := mem_getSortedMigrationName.mp hn
    obtain ⟨m, hm⟩ := Option.isSome_iff_exists.mp (lookupMigration_isSome.mpr hkreg)
    rw [hm]
    exact ⟨_, rfl, lookupMigration_name hm⟩
  refine ⟨hnames, ?_, ?_, by decide⟩
  · rw [hnames]
    exact List.sorted_insertionSort (fun a b => strLe a b = true)
      (reg.map (fun m => m.name))
  · intro r hr
    rw [listMigrations_fst] at hr
    obtain ⟨k, _, hfk⟩ := List.mem_filterMap.mp hr
    obtain ⟨m, hm, hmk⟩ := Option.map_eq_some'.mp hfk
    subst hmk
    simp only
    constructor
    · rw [Option.isSome_map']
      rw [List.find?_isSome]
      constructor
      · rintro ⟨e, he, hp⟩
        have hmem : e ∈ st.rows :=
          mem_getExecutedMigrations.mp (List.mem_reverse.mp he)
        exact List.mem_map.mpr ⟨e, hmem, of_decide_eq_true hp⟩
      · rintro hmem
        rcases List.mem_map.mp hmem with ⟨e, he, hname⟩
        exact ⟨e, List.mem_reverse.mpr (mem_getExecutedMigrations.mpr he),
          decide_eq_true hname⟩
    constructor
    · intro hfalse
      rw [Option.isSome_map'] at hfalse
      rcases hfind : (getExecutedMigrations st false).reverse.find?
          (fun e => e.name = m.name) with _ | e
      · rw [hfind]; rfl
      · rw [hfind] at hfalse; simp at hfalse
    · intro t ht
      obtain ⟨e, hfind, het⟩ := Option.map_eq_some'.mp ht
      have hp := List.find?_some hfind
      have hename : e.name = m.name := of_decide_eq_true hp
      have hmem : e ∈ st.rows :=
        mem_getExecutedMigrations.mp
          (List.mem_reverse.mp (List.mem_of_find?_eq_some hfind))
      have : ({ name := m.name, executedAt := t } : ExecutedMigration) = e := by
        cases e
        simp only [ExecutedMigration.mk.injEq]
        exact ⟨hename.symm, het.symm⟩
      rw [this]
      exact hmem

/-- Witness for C8: the general description instantiated on the example
registry and state, together with the spec's concrete three-entry output. -/
theorem listMigrations_spec_witness :
    (listMigrations exampleReg exampleSt).1.map (fun r => r.name) =
      getSortedMigrationName exampleReg ∧
    (listMigrations exampleReg exampleSt).1 =
      [{ name := "20240101_a", upScript := "CREATE TABLE a (id INT)",
         downScript := "DROP TABLE a", isExecuted := true, executedAt := some 1 },
       { name := "20240102_b", upScript := "CREATE TABLE b (id INT)",
         downScript := "DROP TABLE b", isExecuted := true, executedAt := some 2 },
       { name := "20240103_c", upScript := "CREATE TABLE c (id INT)",
         downScript := "DROP TABLE c", isExecuted := false, executedAt := none }] :=
  ⟨(listMigrations_spec exampleReg exampleSt).1,
   (listMigrations_spec exampleReg exampleSt).2.2.2⟩

end Qafoia
